import Mathlib

/-!
Verification of the mercy-tracker core: the mercy accounting engine
(`mercy_tracker.py`, `utils.py`, `config.py`) and the backup/persistence
subsystem (`backup_manager.py`, the `load_data`/`save_data` glue in `bot.py`).

Python dictionaries are modelled as insertion-ordered association lists,
Python integers as `Int`, and the displayed progress fraction (a Python
float used only for display rounding) as an exact `Rat`.  The filesystem
visible to the backup manager is modelled by an explicit `World` state:
the canonical data file, the backup folder, and injectable failure flags
standing for the exceptions the source catches.
-/

namespace MercyBot

/-! ## Configuration (`config.py`) -/

/-- `VALID_SHARD_TYPES` from `config.py`. -/
def VALID_SHARD_TYPES : List String :=
  ["ancient", "void", "sacred", "primal", "primal_legendary", "primal_mythical", "remnant"]

/-- `MAX_AMOUNT_PER_COMMAND` from `config.py`. -/
def MAX_AMOUNT_PER_COMMAND : Int := 500

/-- `MAX_BACKUPS` from `config.py`. -/
def MAX_BACKUPS : Nat := 10

/-! ## Data model

A `UserRecord` is one user's dictionary mapping shard-type keys to integer
counts; a `Store` maps user-identifier strings to records.  Both keep the
Python dict's insertion order. -/

abbrev UserRecord := List (String × Int)

abbrev Store := List (String × UserRecord)

/-- Dictionary lookup: the value at the first entry whose key matches
(`data[k]` / `k in data`). -/
def rlookup (r : UserRecord) (k : String) : Option Int :=
  (r.find? (fun p => p.1 == k)).map (fun p => p.2)

/-- `data.get(k, 0)`: lookup with default `0`. -/
def rget (r : UserRecord) (k : String) : Int :=
  (rlookup r k).getD 0

/-- In-place assignment `data[k] = v` for a key already present: every entry
with key `k` is overwritten, others are untouched. -/
def rset (r : UserRecord) (k : String) (v : Int) : UserRecord :=
  r.map (fun p => if p.1 == k then (k, v) else p)

/-! ## Mercy engine (`mercy_tracker.py`) -/

/-- `update_tracker(data, shard_type, amount)` from `mercy_tracker.py`:

    if shard_type not in data:
        data[shard_type] = 0
    data[shard_type] += amount

Inserting a missing key appends it at the end (dict insertion order). -/
def update_tracker (data : UserRecord) (shard_type : String) (amount : Int) : UserRecord :=
  let d := if (rlookup data shard_type).isNone then data ++ [(shard_type, 0)] else data
  rset d shard_type (rget d shard_type + amount)

/-- `validate_amount(amount, max_amount)` from `utils.py`:
`1 <= amount <= max_amount <= MAX_AMOUNT_PER_COMMAND`. -/
def validate_amount (amount maxAmount : Int) : Bool :=
  decide (1 ≤ amount ∧ amount ≤ maxAmount ∧ maxAmount ≤ MAX_AMOUNT_PER_COMMAND)

/-- A static mercy rule: threshold (`start`) and percent-per-extra-summon
(`rate`). -/
structure MercyRule where
  start : Int
  rate : Int
deriving DecidableEq

/-- `get_mercy_rules()` from `mercy_tracker.py`, as an insertion-ordered
table `shard type ↦ (rarity ↦ rule)`. -/
def get_mercy_rules : List (String × List (String × MercyRule)) :=
  [("ancient", [("legendary", ⟨200, 5⟩)]),
   ("void", [("legendary", ⟨200, 5⟩)]),
   ("sacred", [("legendary", ⟨12, 2⟩)]),
   ("primal", [("legendary", ⟨75, 1⟩), ("mythical", ⟨200, 10⟩)]),
   ("remnant", [("mythical", ⟨24, 1⟩)])]

/-- Rule-table lookup (`shard_type in mercy_rules` / `mercy_rules[shard_type]`). -/
def rulesFor (k : String) : Option (List (String × MercyRule)) :=
  (get_mercy_rules.find? (fun p => p.1 == k)).map (fun p => p.2)

/-- `calculate_mercy_chance(current_count, mercy_start, rate_per_summon)`
from `mercy_tracker.py`. -/
def calculate_mercy_chance (current_count mercy_start rate_per_summon : Int) : Int :=
  if current_count < mercy_start then 0
  else (current_count - mercy_start) * rate_per_summon

/-- The per-tier progress computation in `get_status`:
`progress = count / start_mercy if start_mercy else 0`.
Python's float division is modelled exactly in `Rat` (the value is only
used for display rounding in the source). -/
def progress_calc (count start_mercy : Int) : Rat :=
  if start_mercy ≠ 0 then (count : Rat) / (start_mercy : Rat) else 0

/-- One rendered line of `get_status`, modelled structurally: each
constructor carries exactly the data the source interpolates into the
corresponding f-string (bar glyphs and casing are presentation only). -/
inductive StatusLine where
  | primalHeader (total : Int)
  | shardHeader (name : String) (count : Int)
  | tierProgress (tier : String) (remaining : Int) (progress : Rat) (count : Int) (start : Int)
  | tierActive (tier : String) (chance : Int)
deriving DecidableEq

/-- The single line `get_status` appends for one (tier, rule) pair:
the "N to mercy" line below threshold, the "MERCY ACTIVE" line at or
above it. -/
def tier_line (tier : String) (count : Int) (rule : MercyRule) : StatusLine :=
  if count < rule.start then
    .tierProgress tier (rule.start - count) (progress_calc count rule.start) count rule.start
  else
    .tierActive tier ((count - rule.start) * rule.rate)

/-- The special-cased Primal block at the top of `get_status`: emitted only
when `primal_legendary > 0 or primal_mythical > 0`, with a combined header
showing the larger of the two counters. -/
def primal_lines (data : UserRecord) : List StatusLine :=
  let primal_legendary := rget data "primal_legendary"
  let primal_mythical := rget data "primal_mythical"
  if primal_legendary > 0 ∨ primal_mythical > 0 then
    StatusLine.primalHeader (max primal_legendary primal_mythical) ::
      tier_line "Legendary" primal_legendary ⟨75, 1⟩ ::
      [tier_line "Mythical" primal_mythical ⟨200, 10⟩]
  else []

/-- The body of the `for shard_type, count in data.items()` loop of
`get_status` for one entry: primal sub-keys are skipped, keys without a
rule are skipped, every other entry gets a header plus one line per tier. -/
def shard_section (p : String × Int) : List StatusLine :=
  if p.1 == "primal_legendary" || p.1 == "primal_mythical" then []
  else
    match rulesFor p.1 with
    | none => []
    | some rs => StatusLine.shardHeader p.1 p.2 :: rs.map (fun q => tier_line q.1 p.2 q.2)

/-- All lines accumulated by `get_status(data)`: the Primal block first,
then the loop over `data.items()` in insertion order. -/
def get_status_lines (data : UserRecord) : List StatusLine :=
  primal_lines data ++ data.flatMap shard_section

/-- The fixed message `get_status` returns when no line was produced. -/
def NO_DATA_MSG : String := "No mercy data tracked yet. Use `/open` to start tracking!"

/-- `get_status(data)` from `mercy_tracker.py`: the no-data message when no
line was accumulated, the rendered lines otherwise. -/
def get_status (data : UserRecord) : Sum String (List StatusLine) :=
  if get_status_lines data = [] then Sum.inl NO_DATA_MSG
  else Sum.inr (get_status_lines data)

/-! ## Lemmas about record operations -/

lemma rlookup_cons (p : String × Int) (t : UserRecord) (k : String) :
    rlookup (p :: t) k = if p.1 == k then some p.2 else rlookup t k := by
  cases h : p.1 == k <;> simp [rlookup, List.find?, h]

lemma rset_cons (p : String × Int) (t : UserRecord) (k : String) (v : Int) :
    rset (p :: t) k v = (if p.1 == k then (k, v) else p) :: rset t k v := by
  simp [rset]

lemma rlookup_rset_self (r : UserRecord) (k : String) (v : Int) :
    rlookup (rset r k v) k = (rlookup r k).map (fun _ => v) := by
  induction r with
  | nil => rfl
  | cons p t ih =>
    cases h : p.1 == k
    · rw [rset_cons]
      simp only [h, if_neg Bool.false_ne_true]
      rw [rlookup_cons, rlookup_cons]
      simp [h, ih]
    · rw [rset_cons]
      simp only [h, if_pos rfl]
      rw [rlookup_cons, rlookup_cons]
      simp [h]

lemma rlookup_rset_ne (r : UserRecord) (k k' : String) (v : Int) (h : k' ≠ k) :
    rlookup (rset r k v) k' = rlookup r k' := by
  induction r with
  | nil => rfl
  | cons p t ih =>
    cases hpk : p.1 == k
    · rw [rset_cons]
      simp only [hpk, if_neg Bool.false_ne_true]
      rw [rlookup_cons, rlookup_cons]
      cases hpk' : p.1 == k' <;> simp [ih]
    · have hp : p.1 = k := by simpa using hpk
      rw [rset_cons]
      simp only [hpk, if_pos rfl]
      rw [rlookup_cons, rlookup_cons]
      have h1 : (k == k') = false := by simpa using fun hkk => h hkk.symm
      have h2 : (p.1 == k') = false := by simpa [hp] using fun hkk => h hkk.symm
      simp [h1, h2, ih]

lemma rlookup_append_single_ne (r : UserRecord) (k k' : String) (h : k' ≠ k) :
    rlookup (r ++ [(k, 0)]) k' = rlookup r k' := by
  induction r with
  | nil =>
    have h1 : (k == k') = false := by simpa using fun hkk => h hkk.symm
    simp [rlookup, List.find?, h1]
  | cons p t ih =>
    rw [List.cons_append, rlookup_cons, rlookup_cons]
    cases hpk' : p.1 == k' <;> simp [ih]

lemma rlookup_append_single_self (r : UserRecord) (k : String) (h : rlookup r k = none) :
    rlookup (r ++ [(k, 0)]) k = some 0 := by
  induction r with
  | nil => simp [rlookup, List.find?]
  | cons p t ih =>
    rw [rlookup_cons] at h
    rw [List.cons_append, rlookup_cons]
    cases hpk : p.1 == k
    · simp only [hpk, if_neg Bool.false_ne_true] at h ⊢
      exact ih h
    · simp [hpk] at h

/-- Shared characterisation of `update_tracker` at the updated key: the new
count is the old count (0 when absent) plus `amount`. -/
lemma update_tracker_lookup_self (r : UserRecord) (k : String) (a : Int) :
    rlookup (update_tracker r k a) k = some (rget r k + a) := by
  unfold update_tracker
  by_cases habs : (rlookup r k).isNone
  · have h0 : rlookup r k = none := Option.isNone_iff_eq_none.mp habs
    rw [if_pos habs]
    have h1 : rlookup (r ++ [(k, 0)]) k = some 0 := rlookup_append_single_self r k h0
    rw [rlookup_rset_self, h1]
    simp [rget, h0, h1]
  · have h0 : ∃ c, rlookup r k = some c := by
      cases hc : rlookup r k
      · simp [hc] at habs
      · exact ⟨_, rfl⟩
    obtain ⟨c, hc⟩ := h0
    rw [if_neg habs, rlookup_rset_self, hc]
    simp [rget, hc]

lemma update_tracker_lookup_ne (r : UserRecord) (k : String) (a : Int) (k' : String)
    (h : k' ≠ k) :
    rlookup (update_tracker r k a) k' = rlookup r k' := by
  unfold update_tracker
  by_cases habs : (rlookup r k).isNone
  · rw [if_pos habs, rlookup_rset_ne _ _ _ _ h, rlookup_append_single_ne _ _ _ h]
  · rw [if_neg habs, rlookup_rset_ne _ _ _ _ h]

/-! ## Claim C2 -/

/-- **C2** (confirmed): for every record, valid category and positive
validated amount, `update_tracker` leaves the category's count at exactly
`oldCount + amount` (old count 0 when the key was absent), in exact integer
arithmetic, and changes no other key of the record. -/
theorem update_tracker_adds_exactly (r : UserRecord) (k : String) (a : Int)
    (hk : k ∈ VALID_SHARD_TYPES)
    (ha : validate_amount a MAX_AMOUNT_PER_COMMAND = true) :
    rlookup (update_tracker r k a) k = some (rget r k + a) ∧
    ∀ k', k' ≠ k → rlookup (update_tracker r k a) k' = rlookup r k' :=
  ⟨update_tracker_lookup_self r k a, fun k' h => update_tracker_lookup_ne r k a k' h⟩

/-- Witness for C2 at a concrete record. -/
theorem update_tracker_adds_exactly_witness :
    rlookup (update_tracker [("sacred", 12)] "sacred" 3) "sacred" = some 15 :=
  ((update_tracker_adds_exactly [("sacred", 12)] "sacred" 3 (by decide) (by decide)).1).trans
    (by decide)

/-! ## Claim C3 -/

/-- **C3** counterexample: with a negative rate the mercy bonus is *not*
monotonically non-decreasing in the count, refuting the claim's
quantification over all integer rates. -/
theorem calculate_mercy_chance_monotonicity_fails :
    ¬ (calculate_mercy_chance 0 0 (-1) ≤ calculate_mercy_chance 1 0 (-1)) := by
  decide

/-- **C3** (amended): `calculate_mercy_chance` is `0` below the threshold and
`(count - start) * rate` at or above it, for all integer arguments; it is
monotonically non-decreasing in the count whenever `rate` is non-negative. -/
theorem calculate_mercy_chance_spec (current_count mercy_start rate : Int) :
    (current_count < mercy_start →
      calculate_mercy_chance current_count mercy_start rate = 0) ∧
    (mercy_start ≤ current_count →
      calculate_mercy_chance current_count mercy_start rate =
        (current_count - mercy_start) * rate) ∧
    (0 ≤ rate → ∀ c1 c2 : Int, c1 ≤ c2 →
      calculate_mercy_chance c1 mercy_start rate ≤
        calculate_mercy_chance c2 mercy_start rate) := by
  unfold calculate_mercy_chance
  refine ⟨fun h => if_pos h, fun h => if_neg (not_lt.mpr h), fun hr c1 c2 hc => ?_⟩
  by_cases h1 : c1 < mercy_start
  · rw [if_pos h1]
    by_cases h2 : c2 < mercy_start
    · rw [if_pos h2]
    · rw [if_neg h2]
      exact mul_nonneg (sub_nonneg.mpr (not_lt.mp h2)) hr
  · rw [if_neg h1, if_neg (fun h2 => h1 (lt_of_le_of_lt hc h2))]
    exact mul_le_mul_of_nonneg_right (sub_le_sub_right hc _) hr

/-- Witness for C3 at concrete inputs (the sacred-shard rule). -/
theorem calculate_mercy_chance_spec_witness :
    calculate_mercy_chance 5 12 2 = 0 ∧ calculate_mercy_chance 15 12 2 = 6 ∧
    calculate_mercy_chance 13 12 2 ≤ calculate_mercy_chance 15 12 2 :=
  ⟨(calculate_mercy_chance_spec 5 12 2).1 (by decide),
   ((calculate_mercy_chance_spec 15 12 2).2.1 (by decide)).trans (by decide),
   (calculate_mercy_chance_spec 13 12 2).2.2 (by decide) 13 15 (by decide)⟩

/-! ## Claim C7 -/

/-- **C7** counterexample: `update_tracker` performs no category validation;
called with a key outside the tracked set it does not fail but silently
creates the unknown key. -/
theorem update_tracker_accepts_unknown_category :
    ("bogus" ∉ VALID_SHARD_TYPES) ∧ update_tracker [] "bogus" 1 = [("bogus", 1)] :=
  ⟨by decide, by decide⟩

/-- **C7** (amended): for a category name outside the tracked set,
`update_tracker` does not fail; it silently adds the unknown key, leaving it
at `oldCount + amount` (0 when absent). -/
theorem update_tracker_unknown_category_adds_key (r : UserRecord) (k : String) (a : Int)
    (hk : k ∉ VALID_SHARD_TYPES) :
    rlookup (update_tracker r k a) k = some (rget r k + a) :=
  update_tracker_lookup_self r k a

/-- Witness for C7's amended claim at a concrete unknown key. -/
theorem update_tracker_unknown_category_adds_key_witness :
    rlookup (update_tracker [] "bogus" 1) "bogus" = some 1 :=
  (update_tracker_unknown_category_adds_key [] "bogus" 1 (by decide)).trans (by decide)

/-! ## Claim C8 -/

/-- **C8** counterexample: with a rule threshold of 0 the engine's progress
computation yields 0, not complete progress 1.0 as the claim states. -/
theorem progress_calc_zero_start_not_one : progress_calc 5 0 ≠ 1 := by
  decide

/-- **C8** (amended): for a rule with `start = 0` the engine's progress
computation yields 0 — it guards the division and does not fail, but it does
not treat progress as complete. -/
theorem progress_calc_zero_start (count : Int) : progress_calc count 0 = 0 := by
  simp [progress_calc]

/-! ## Claim C10 -/

lemma tier_line_ne_primalHeader (tier : String) (count : Int) (rule : MercyRule) (t : Int) :
    tier_line tier count rule ≠ StatusLine.primalHeader t := by
  unfold tier_line
  split <;> simp

lemma primalHeader_not_mem_shard_section (p : String × Int) (t : Int) :
    StatusLine.primalHeader t ∉ shard_section p := by
  unfold shard_section
  split
  · simp
  · split
    · simp
    · intro hmem
      rcases List.mem_cons.mp hmem with h | h
      · exact StatusLine.noConfusion h
      · rcases List.mem_map.mp h with ⟨q, hq, hEq⟩
        exact tier_line_ne_primalHeader _ _ _ _ hEq

lemma rget_eq_zero_of_all_zero (data : UserRecord) (k : String)
    (h : ∀ p ∈ data, p.2 = 0) : rget data k = 0 := by
  induction data with
  | nil => rfl
  | cons p t ih =>
    unfold rget
    rw [rlookup_cons]
    cases hpk : p.1 == k
    · simp only [hpk, if_neg Bool.false_ne_true]
      exact ih (fun q hq => h q (List.mem_cons_of_mem p hq))
    · simp only [hpk, if_pos rfl, Option.getD_some]
      exact h p (List.mem_cons_self p t)

/-- **C10** (confirmed): `get_status` treats present-as-zero keys
asymmetrically.  The grouped Primal section appears iff `primal_legendary`
or `primal_mythical` is strictly positive (a primal counter present at 0
produces no output); any other key with a mercy rule that is present in the
record, even with count 0, produces its own section header; and a record
whose only keys are the primal counters at 0 yields the fixed no-data
message. -/
theorem get_status_primal_zero_asymmetry (data : UserRecord) :
    ((∃ t, StatusLine.primalHeader t ∈ get_status_lines data) ↔
      (rget data "primal_legendary" > 0 ∨ rget data "primal_mythical" > 0)) ∧
    (∀ k c rs, (k, c) ∈ data → k ≠ "primal_legendary" → k ≠ "primal_mythical" →
      rulesFor k = some rs → StatusLine.shardHeader k c ∈ get_status_lines data) ∧
    ((∀ p ∈ data, (p.1 = "primal_legendary" ∨ p.1 = "primal_mythical") ∧ p.2 = 0) →
      get_status data = Sum.inl NO_DATA_MSG) := by
  refine ⟨⟨?_, ?_⟩, ?_, ?_⟩
  · rintro ⟨t, ht⟩
    rcases List.mem_append.mp ht with h | h
    · unfold primal_lines at h
      by_cases hc : rget data "primal_legendary" > 0 ∨ rget data "primal_mythical" > 0
      · exact hc
      · rw [if_neg hc] at h
        simp at h
    · rcases List.mem_flatMap.mp h with ⟨p, hp, hmem⟩
      exact absurd hmem (primalHeader_not_mem_shard_section p t)
  · intro hc
    refine ⟨max (rget data "primal_legendary") (rget data "primal_mythical"), ?_⟩
    apply List.mem_append_left
    unfold primal_lines
    rw [if_pos hc]
    exact List.mem_cons_self _ _
  · intro k c rs hkc hne1 hne2 hrules
    apply List.mem_append_right
    apply List.mem_flatMap.mpr
    refine ⟨(k, c), hkc, ?_⟩
    unfold shard_section
    have hcond : ((k, c).1 == "primal_legendary" || (k, c).1 == "primal_mythical") = false := by
      simp [hne1, hne2]
    rw [if_neg (by simp [hcond])]
    simp only [hrules]
    exact List.mem_cons_self _ _
  · intro hall
    have hzero : ∀ q, rget data q = 0 :=
      fun q => rget_eq_zero_of_all_zero data q (fun p hp => (hall p hp).2)
    have hpl : primal_lines data = [] := by
      unfold primal_lines
      rw [if_neg]
      rw [hzero "primal_legendary", hzero "primal_mythical"]
      simp
    have hfm : data.flatMap shard_section = [] := by
      apply List.flatMap_eq_nil_iff.mpr
      intro p hp
      unfold shard_section
      rcases (hall p hp).1 with h | h <;> rw [if_pos (by simp [h])]
    unfold get_status get_status_lines
    rw [hpl, hfm]
    simp

/-- Witness for C10: a non-primal key present at count 0 still renders a
section, while a record holding only the primal counters at 0 renders the
no-data message. -/
theorem get_status_primal_zero_asymmetry_witness :
    StatusLine.shardHeader "sacred" 0 ∈ get_status_lines [("sacred", 0)] ∧
    get_status [("primal_legendary", 0), ("primal_mythical", 0)] = Sum.inl NO_DATA_MSG :=
  ⟨(get_status_primal_zero_asymmetry [("sacred", 0)]).2.1 "sacred" 0
      [("legendary", ⟨12, 2⟩)] (by decide) (by decide) (by decide) (by decide),
   (get_status_primal_zero_asymmetry
      [("primal_legendary", 0), ("primal_mythical", 0)]).2.2 (by decide)⟩

/-! ## Backup manager and persistence glue (`backup_manager.py`, `bot.py`)

The filesystem is modelled explicitly.  A file's contents either parse as a
`Store` or raise `json.JSONDecodeError` (`FileData.unparseable`); JSON
serialisation is modelled at the value level (this repository always dumps
and loads whole `Store` values through the `json` library).  Backup
filenames are timestamp-derived and modelled as the `Nat` clock value at
creation time; `removeFails`/`backupWriteFails`/`canonicalWriteFails`
inject the `OSError`-style exceptions the source catches. -/

inductive FileData where
  | unparseable
  | parsed (s : Store)
deriving DecidableEq

/-- One file in the backup folder: its (timestamp-derived) name, contents,
and modification time. -/
structure BackupFile where
  name : Nat
  content : FileData
  mtime : Nat
deriving DecidableEq

/-- The filesystem state plus injectable failures. `now` is the current
clock used for the next snapshot's filename and mtime. -/
structure World where
  canonical : Option FileData
  backups : List BackupFile
  backupWriteFails : Bool
  canonicalWriteFails : Bool
  removeFails : Nat → Bool
  now : Nat

/-- The sort key of `backup_files.sort(key=getmtime, reverse=True)`:
`a` precedes `b` when `a` is at least as recently modified. -/
def newerEq (a b : BackupFile) : Prop := b.mtime ≤ a.mtime

instance : DecidableRel newerEq := fun a b => Nat.decLe b.mtime a.mtime

instance : IsTotal BackupFile newerEq := ⟨fun a b => Nat.le_total b.mtime a.mtime⟩

instance : IsTrans BackupFile newerEq :=
  ⟨fun _ _ _ hab hbc => le_trans hbc hab⟩

/-- The newest-first listing of the backup folder. -/
def sortDesc (l : List BackupFile) : List BackupFile :=
  l.insertionSort newerEq

/-- `cleanup_old_backups()` from `backup_manager.py`, with the retention
count as a parameter (the source reads the constant `MAX_BACKUPS`).  When
more than `maxBackups` files exist, the files after the first `maxBackups`
in newest-first order are deleted one by one; a failing deletion raises out
of the loop into the surrounding `except` block, so deletion stops at the
first failure while the files already deleted stay deleted. -/
def cleanup_old_backups (maxBackups : Nat) (w : World) : World :=
  if w.backups.length ≤ maxBackups then w
  else
    let sorted := sortDesc w.backups
    let toRemove := (sorted.drop maxBackups).map (fun f => f.name)
    let removed := toRemove.takeWhile (fun n => !w.removeFails n)
    { w with backups := w.backups.filter (fun f => !decide (f.name ∈ removed)) }

/-- `backup_data(data)` from `backup_manager.py`: on any failure it returns
`none` and never raises; otherwise it writes a timestamped snapshot of
`data` (overwriting a same-name file from the same second, the source's
accepted last-writer-wins collision), prunes old backups, and returns the
new file's name. -/
def backup_data (data : Store) (w : World) : World × Option Nat :=
  if w.backupWriteFails then (w, none)
  else
    let f : BackupFile := ⟨w.now, FileData.parsed data, w.now⟩
    let w1 : World :=
      { w with backups := w.backups.filter (fun g => !decide (g.name = w.now)) ++ [f] }
    let w2 := cleanup_old_backups MAX_BACKUPS w1
    (w2, some w.now)

/-- `restore_data()` from `backup_manager.py`: `none` when the folder holds
no backup, otherwise it loads the most recently modified backup — and only
that one; a parse failure there is caught and turned into `none` without
trying older backups. -/
def restore_data (w : World) : Option Store :=
  match sortDesc w.backups with
  | [] => none
  | f :: _ =>
    match f.content with
    | FileData.unparseable => none
    | FileData.parsed s => some s

/-- `load_data()` from `bot.py`: missing canonical file gives an empty
store; a JSON decode error triggers `restore_data()`, whose result is used
when truthy (a non-empty dict) and otherwise replaced by the empty store. -/
def load_data (w : World) : Store :=
  match w.canonical with
  | none => []
  | some FileData.unparseable =>
    match restore_data w with
    | some s => if s = [] then [] else s
    | none => []
  | some (FileData.parsed s) => s

/-- `save_data(data)` from `bot.py`: runs `backup_data(data)` (which never
raises), then writes the canonical file; only a canonical-write failure is
re-raised to the caller (the `Bool` result: `true` means an exception
propagated).  A failed write is modelled as leaving the canonical file
truncated/unparseable. -/
def save_data (data : Store) (w : World) : World × Bool :=
  let w1 := (backup_data data w).1
  if w.canonicalWriteFails then
    ({ w1 with canonical := some FileData.unparseable }, true)
  else
    ({ w1 with canonical := some (FileData.parsed data) }, false)

/-! ## Lemmas about the newest-first listing -/

lemma sortDesc_perm (l : List BackupFile) : List.Perm (sortDesc l) l :=
  List.perm_insertionSort _ _

lemma sortDesc_sorted (l : List BackupFile) : List.Sorted newerEq (sortDesc l) :=
  List.sorted_insertionSort _ _

/-- A file strictly more recently modified than every other file heads the
newest-first listing. -/
lemma sortDesc_strict_max_head (l : List BackupFile) (x : BackupFile)
    (hx : x ∈ l) (hmax : ∀ g ∈ l, g ≠ x → g.mtime < x.mtime) :
    ∃ rest, sortDesc l = x :: rest := by
  have hperm := sortDesc_perm l
  have hsorted := sortDesc_sorted l
  have hx' : x ∈ sortDesc l := hperm.mem_iff.mpr hx
  cases hsl : sortDesc l with
  | nil =>
    rw [hsl] at hx'
    exact absurd hx' (List.not_mem_nil x)
  | cons y rest =>
    rw [hsl] at hx' hsorted hperm
    by_cases hxy : y = x
    · exact ⟨rest, by rw [hxy]⟩
    · have hxr : x ∈ rest := by
        rcases List.mem_cons.mp hx' with h | h
        · exact absurd h.symm hxy
        · exact h
      have h1 : newerEq y x := List.rel_of_sorted_cons hsorted x hxr
      have hy_mem : y ∈ l := hperm.subset (List.mem_cons_self y rest)
      have h2 : y.mtime < x.mtime := hmax y hy_mem hxy
      exact absurd h1 (not_le.mpr h2)

lemma restore_data_of_strict_max (w : World) (f : BackupFile) (s : Store)
    (hf : f ∈ w.backups) (hmax : ∀ g ∈ w.backups, g ≠ f → g.mtime < f.mtime)
    (hc : f.content = FileData.parsed s) :
    restore_data w = some s := by
  obtain ⟨rest, hsl⟩ := sortDesc_strict_max_head w.backups f hf hmax
  unfold restore_data
  rw [hsl]
  simp [hc]

lemma restore_data_of_strict_max_unparseable (w : World) (f : BackupFile)
    (hf : f ∈ w.backups) (hmax : ∀ g ∈ w.backups, g ≠ f → g.mtime < f.mtime)
    (hc : f.content = FileData.unparseable) :
    restore_data w = none := by
  obtain ⟨rest, hsl⟩ := sortDesc_strict_max_head w.backups f hf hmax
  unfold restore_data
  rw [hsl]
  simp [hc]

/-! ## Claim C1 -/

/-- A world whose canonical file is corrupt and whose *older* backup is
valid while the *most recent* backup is itself unparseable. -/
def corruptWorld : World :=
  ⟨some FileData.unparseable,
   [⟨0, FileData.parsed [("alice", [("sacred", 14)])], 0⟩, ⟨1, FileData.unparseable, 1⟩],
   false, false, fun _ => false, 2⟩

/-- **C1** counterexample: the canonical file is invalid JSON and the backup
folder contains a prior valid (non-empty) backup, yet `load_data` returns
the empty store: `restore_data` tries only the single most recent backup,
which is unparseable, and never falls back to the older valid one. -/
theorem load_data_ignores_older_valid_backup :
    corruptWorld.canonical = some FileData.unparseable ∧
    (⟨0, FileData.parsed [("alice", [("sacred", 14)])], 0⟩ : BackupFile) ∈ corruptWorld.backups ∧
    load_data corruptWorld = [] := by
  decide

/-- **C1** (amended): `load_data` never fails outright.  It returns the
empty store when the canonical file is absent; when the canonical file is
unparseable it returns the contents of the most recent backup if that
backup parses, and the empty store when the folder is empty or the most
recent backup is itself unparseable (even if older valid backups exist). -/
theorem load_data_spec (w : World) :
    (w.canonical = none → load_data w = []) ∧
    (w.canonical = some FileData.unparseable → w.backups = [] → load_data w = []) ∧
    (∀ f s, w.canonical = some FileData.unparseable → f ∈ w.backups →
      (∀ g ∈ w.backups, g ≠ f → g.mtime < f.mtime) →
      f.content = FileData.parsed s → load_data w = s) ∧
    (∀ f, w.canonical = some FileData.unparseable → f ∈ w.backups →
      (∀ g ∈ w.backups, g ≠ f → g.mtime < f.mtime) →
      f.content = FileData.unparseable → load_data w = []) := by
  refine ⟨?_, ?_, ?_, ?_⟩
  · intro h
    simp [load_data, h]
  · intro h hb
    simp [load_data, restore_data, h, hb, sortDesc, List.insertionSort]
  · intro f s h hf hmax hc
    have hr := restore_data_of_strict_max w f s hf hmax hc
    by_cases hs : s = [] <;> simp [load_data, h, hr, hs]
  · intro f h hf hmax hc
    simp [load_data, h, restore_data_of_strict_max_unparseable w f hf hmax hc]

/-- A world whose canonical file is corrupt and whose most recent backup is
valid. -/
def recoverWorld : World :=
  ⟨some FileData.unparseable,
   [⟨0, FileData.unparseable, 0⟩, ⟨1, FileData.parsed [("alice", [("sacred", 14)])], 1⟩],
   false, false, fun _ => false, 2⟩

/-- Witness for C1: with a corrupt canonical file and a valid most recent
backup, `load_data` returns that backup's contents. -/
theorem load_data_spec_witness :
    load_data recoverWorld = [("alice", [("sacred", 14)])] :=
  (load_data_spec recoverWorld).2.2.1
    ⟨1, FileData.parsed [("alice", [("sacred", 14)])], 1⟩
    [("alice", [("sacred", 14)])] rfl (by decide) (by decide) rfl

/-! ## Lemmas about pruning -/

lemma cleanup_old_backups_of_le (maxB : Nat) (w : World)
    (h : w.backups.length ≤ maxB) : cleanup_old_backups maxB w = w := by
  unfold cleanup_old_backups
  rw [if_pos h]

lemma cleanup_old_backups_of_lt (maxB : Nat) (w : World)
    (h : maxB < w.backups.length) :
    (cleanup_old_backups maxB w).backups =
      w.backups.filter (fun f =>
        !decide (f.name ∈ (((sortDesc w.backups).drop maxB).map (fun f => f.name)).takeWhile
          (fun n => !w.removeFails n))) := by
  unfold cleanup_old_backups
  rw [if_neg (not_le.mpr h)]

lemma takeWhile_append_cons {α : Type} (p : α → Bool) (l1 : List α) (a : α) (l2 : List α)
    (h1 : ∀ x ∈ l1, p x = true) (ha : p a = false) :
    (l1 ++ a :: l2).takeWhile p = l1 := by
  induction l1 with
  | nil => simp [List.takeWhile_cons, ha]
  | cons x t ih =>
    have hx := h1 x (List.mem_cons_self x t)
    simp [List.takeWhile_cons, hx, ih (fun y hy => h1 y (List.mem_cons_of_mem x hy))]

/-! ## Claim C9 -/

/-- A backup folder with three snapshots where deleting the file named `1`
fails.  With retention 1, the excess files are those named `1` and `0`. -/
def pruneAbortWorld : World :=
  ⟨none,
   [⟨0, FileData.parsed [], 0⟩, ⟨1, FileData.parsed [], 1⟩, ⟨2, FileData.parsed [], 2⟩],
   false, false, fun n => decide (n = 1), 3⟩

/-- **C9** counterexample: with retention 1, both the files named 1 and 0
are excess; deleting file 1 fails, and file 0 — whose own deletion would
succeed — is then not deleted either.  One deletion failure prevents
pruning the remaining excess files, refuting the claim. -/
theorem cleanup_failure_blocks_remaining_deletions :
    pruneAbortWorld.removeFails 0 = false ∧
    (⟨0, FileData.parsed [], 0⟩ : BackupFile) ∈ (cleanup_old_backups 1 pruneAbortWorld).backups ∧
    (⟨1, FileData.parsed [], 1⟩ : BackupFile) ∈ (cleanup_old_backups 1 pruneAbortWorld).backups := by
  decide

/-- **C9** (amended): the deletion loop is wrapped in a single exception
handler, so pruning deletes the excess files strictly preceding the first
failing deletion in newest-first order and then stops: every file whose
name is not among those deleted survives (in particular the failing file
and all older excess files), and the prune call itself reports no error. -/
theorem cleanup_deletes_until_first_failure (maxB : Nat) (w : World)
    (xs : List BackupFile) (b : BackupFile) (ys : List BackupFile)
    (hlen : maxB < w.backups.length)
    (hsplit : (sortDesc w.backups).drop maxB = xs ++ b :: ys)
    (hxs : ∀ x ∈ xs, w.removeFails x.name = false)
    (hb : w.removeFails b.name = true) :
    (∀ f ∈ w.backups, f.name ∉ xs.map (fun x => x.name) →
      f ∈ (cleanup_old_backups maxB w).backups) ∧
    (∀ f ∈ xs, f ∉ (cleanup_old_backups maxB w).backups) := by
  have hremoved : (((sortDesc w.backups).drop maxB).map (fun f => f.name)).takeWhile
      (fun n => !w.removeFails n) = xs.map (fun x => x.name) := by
    rw [hsplit, List.map_append, List.map_cons]
    apply takeWhile_append_cons
    · intro n hn
      rcases List.mem_map.mp hn with ⟨x, hx, hxn⟩
      rw [← hxn]
      simp [hxs x hx]
    · simp [hb]
  constructor
  · intro f hf hname
    rw [cleanup_old_backups_of_lt maxB w hlen]
    simp only [hremoved]
    exact List.mem_filter.mpr ⟨hf, by simpa using hname⟩
  · intro f hf hmem
    rw [cleanup_old_backups_of_lt maxB w hlen] at hmem
    simp only [hremoved] at hmem
    have := (List.mem_filter.mp hmem).2
    simp only [Bool.not_eq_true', decide_eq_false_iff_not] at this
    exact this (List.mem_map.mpr ⟨f, hf, rfl⟩)

/-- A backup folder with three snapshots where only deleting the file named
`0` fails; with retention 1 the excess files are those named `1` (deleted)
and `0` (its deletion fails and aborts the loop). -/
def pruneFailWorld : World :=
  ⟨none,
   [⟨0, FileData.parsed [], 0⟩, ⟨1, FileData.parsed [], 1⟩, ⟨2, FileData.parsed [], 2⟩],
   false, false, fun n => decide (n = 0), 3⟩

/-- Witness for C9's amended claim: the newest excess file (name 1) is
deleted before the failure at file 0, which survives along with the
retained newest file. -/
theorem cleanup_deletes_until_first_failure_witness :
    (⟨2, FileData.parsed [], 2⟩ : BackupFile) ∈ (cleanup_old_backups 1 pruneFailWorld).backups ∧
    (⟨0, FileData.parsed [], 0⟩ : BackupFile) ∈ (cleanup_old_backups 1 pruneFailWorld).backups ∧
    (⟨1, FileData.parsed [], 1⟩ : BackupFile) ∉ (cleanup_old_backups 1 pruneFailWorld).backups :=
  ⟨(cleanup_deletes_until_first_failure 1 pruneFailWorld [⟨1, FileData.parsed [], 1⟩]
      ⟨0, FileData.parsed [], 0⟩ [] (by decide) (by decide) (by decide) (by decide)).1
      ⟨2, FileData.parsed [], 2⟩ (by decide) (by decide),
   (cleanup_deletes_until_first_failure 1 pruneFailWorld [⟨1, FileData.parsed [], 1⟩]
      ⟨0, FileData.parsed [], 0⟩ [] (by decide) (by decide) (by decide) (by decide)).1
      ⟨0, FileData.parsed [], 0⟩ (by decide) (by decide),
   (cleanup_deletes_until_first_failure 1 pruneFailWorld [⟨1, FileData.parsed [], 1⟩]
      ⟨0, FileData.parsed [], 0⟩ [] (by decide) (by decide) (by decide) (by decide)).2
      ⟨1, FileData.parsed [], 1⟩ (by decide)⟩

/-! ## Claim C5 -/

/-- Filtering a permutation of `l1 ++ l2` with a predicate that accepts all
of `l1` and rejects all of `l2` yields a permutation of `l1`. -/
lemma filter_split (l1 l2 base : List BackupFile) (p : BackupFile → Bool)
    (h1 : ∀ f ∈ l1, p f = true) (h2 : ∀ f ∈ l2, p f = false)
    (hperm : List.Perm base (l1 ++ l2)) :
    List.Perm (base.filter p) l1 := by
  have hp := hperm.filter p
  have h1e : List.filter p l1 = l1 := List.filter_eq_self.mpr h1
  have h2e : List.filter p l2 = [] :=
    List.filter_eq_nil_iff.mpr (fun a ha hpa => by simp [h2 a ha] at hpa)
  rw [List.filter_append, h1e, h2e, List.append_nil] at hp
  exact hp

/-- The 15 snapshots of the claim's scenario, with distinct modification
times 0..14, plus a clock at 15 for the next snapshot. -/
def fifteenWorld : World :=
  ⟨none, (List.range 15).map (fun i => ⟨i, FileData.parsed [], i⟩),
   false, false, fun _ => false, 15⟩

/-- **C5** (confirmed): with distinct modification times, distinct names and
no deletion failures, pruning with retention `maxB` leaves exactly
`min maxB total` snapshot files, and every surviving file is strictly more
recent than every removed one (so the survivors are precisely the `maxB`
most recently modified).  In particular, in the claim's scenario — retention
10 and 15 existing snapshots — one more `backup_data` leaves exactly the 10
most recent files, the 6 oldest (mtimes 0–5) removed. -/
theorem cleanup_keeps_n_most_recent (maxB : Nat) (w : World)
    (hnames : (w.backups.map (fun f => f.name)).Nodup)
    (hmt : (w.backups.map (fun f => f.mtime)).Nodup)
    (hnofail : ∀ f ∈ w.backups, w.removeFails f.name = false) :
    ((cleanup_old_backups maxB w).backups.length = min maxB w.backups.length ∧
    ∀ f ∈ (cleanup_old_backups maxB w).backups, ∀ g ∈ w.backups,
      g ∉ (cleanup_old_backups maxB w).backups → g.mtime < f.mtime) ∧
    ((backup_data [] fifteenWorld).1.backups.map (fun f => f.mtime))
      = [6, 7, 8, 9, 10, 11, 12, 13, 14, 15] := by
  refine ⟨?_, by decide⟩
  by_cases hle : w.backups.length ≤ maxB
  · rw [cleanup_old_backups_of_le maxB w hle]
    exact ⟨(Nat.min_eq_right hle).symm, fun f hf g hg hng => absurd hg hng⟩
  · have hlt : maxB < w.backups.length := not_le.mp hle
    have hperm : List.Perm (sortDesc w.backups) w.backups := sortDesc_perm w.backups
    have hsortedp : List.Sorted newerEq (sortDesc w.backups) := sortDesc_sorted w.backups
    have hdropsub : ∀ g ∈ (sortDesc w.backups).drop maxB, g ∈ w.backups :=
      fun g hg => hperm.subset (List.drop_subset maxB _ hg)
    have htakesub : ∀ g ∈ (sortDesc w.backups).take maxB, g ∈ w.backups :=
      fun g hg => hperm.subset (List.take_subset maxB _ hg)
    have hremoved : ((((sortDesc w.backups).drop maxB).map (fun f => f.name)).takeWhile
        (fun n => !w.removeFails n)) = ((sortDesc w.backups).drop maxB).map (fun f => f.name) := by
      apply List.takeWhile_eq_self_iff.mpr
      intro n hn
      rcases List.mem_map.mp hn with ⟨g, hg, hgn⟩
      rw [← hgn]
      simp [hnofail g (hdropsub g hg)]
    have hcb : (cleanup_old_backups maxB w).backups
        = w.backups.filter (fun f =>
            !decide (f.name ∈ ((sortDesc w.backups).drop maxB).map (fun f => f.name))) := by
      rw [cleanup_old_backups_of_lt maxB w hlt]
      simp only [hremoved]
    have hnames_sorted : (((sortDesc w.backups).map (fun f => f.name)).Nodup) :=
      ((hperm.map (fun f => f.name)).nodup_iff).mpr hnames
    have hdisj : ∀ f ∈ (sortDesc w.backups).take maxB,
        f.name ∉ ((sortDesc w.backups).drop maxB).map (fun f => f.name) := by
      intro f hf hmem
      have hns : ((((sortDesc w.backups).take maxB)
          ++ ((sortDesc w.backups).drop maxB)).map (fun f => f.name)).Nodup := by
        rw [List.take_append_drop]
        exact hnames_sorted
      rw [List.map_append] at hns
      exact List.disjoint_of_nodup_append hns (List.mem_map.mpr ⟨f, hf, rfl⟩) hmem
    have hbp : List.Perm w.backups
        ((sortDesc w.backups).take maxB ++ (sortDesc w.backups).drop maxB) := by
      rw [List.take_append_drop]
      exact hperm.symm
    have hsurv : List.Perm ((cleanup_old_backups maxB w).backups)
        ((sortDesc w.backups).take maxB) := by
      rw [hcb]
      apply filter_split _ ((sortDesc w.backups).drop maxB) _ _ _ _ hbp
      · intro f hf
        simpa using hdisj f hf
      · intro f hf
        have : f.name ∈ ((sortDesc w.backups).drop maxB).map (fun g => g.name) :=
          List.mem_map.mpr ⟨f, hf, rfl⟩
        simpa using this
    constructor
    · rw [hsurv.length_eq, List.length_take, hperm.length_eq]
    · intro f hf g hg hng
      have hf_take : f ∈ (sortDesc w.backups).take maxB := hsurv.subset hf
      have hfb : f ∈ w.backups := htakesub f hf_take
      have hg_td : g ∈ (sortDesc w.backups).take maxB ++ (sortDesc w.backups).drop maxB := by
        rw [List.take_append_drop]
        exact hperm.mem_iff.mpr hg
      rcases List.mem_append.mp hg_td with htake | hdrop
      · exfalso
        apply hng
        rw [hcb]
        exact List.mem_filter.mpr ⟨hg, by simpa using hdisj g htake⟩
      · have hpw : List.Pairwise newerEq
            ((sortDesc w.backups).take maxB ++ (sortDesc w.backups).drop maxB) := by
          rw [List.take_append_drop]
          exact hsortedp
        have hrel : newerEq f g := (List.pairwise_append.mp hpw).2.2 f hf_take g hdrop
        have hfg : f ≠ g := fun he => hng (he ▸ hf)
        have hne : g.mtime ≠ f.mtime :=
          fun he => hfg (List.inj_on_of_nodup_map hmt hfb hg he.symm)
        exact lt_of_le_of_ne hrel hne

/-- A backup folder of three snapshots with distinct names and mtimes and no
deletion failures. -/
def pruneWorld : World :=
  ⟨none,
   [⟨0, FileData.parsed [], 0⟩, ⟨1, FileData.parsed [], 1⟩, ⟨2, FileData.parsed [], 2⟩],
   false, false, fun _ => false, 3⟩

/-- Witness for C5: pruning three snapshots with retention 2 leaves exactly
two files. -/
theorem cleanup_keeps_n_most_recent_witness :
    (cleanup_old_backups 2 pruneWorld).backups.length = 2 :=
  ((cleanup_keeps_n_most_recent 2 pruneWorld (by decide) (by decide) (by decide)).1.1).trans
    (by decide)

/-! ## Claims C4 and C6 -/

/-- If the folder is `fl ++ [x]` where `x` is strictly newer than everything
in `fl` and no file of `fl` shares `x`'s name, then `x` survives pruning
with any positive retention, and every surviving file is `x` or from `fl`. -/
lemma cleanup_append_max_survives (maxB : Nat) (hN : 1 ≤ maxB) (w1 : World)
    (fl : List BackupFile) (x : BackupFile)
    (hshape : w1.backups = fl ++ [x])
    (hmt : ∀ g ∈ fl, g.mtime < x.mtime)
    (hname : ∀ g ∈ fl, g.name ≠ x.name) :
    x ∈ (cleanup_old_backups maxB w1).backups ∧
    (∀ g ∈ (cleanup_old_backups maxB w1).backups, g = x ∨ g ∈ fl) := by
  have hx_mem : x ∈ w1.backups := by
    rw [hshape]
    exact List.mem_append_right _ (List.mem_singleton.mpr rfl)
  have hmax : ∀ g ∈ w1.backups, g ≠ x → g.mtime < x.mtime := by
    intro g hg hne
    rw [hshape] at hg
    rcases List.mem_append.mp hg with h | h
    · exact hmt g h
    · exact absurd (List.mem_singleton.mp h) hne
  by_cases hlen : w1.backups.length ≤ maxB
  · rw [cleanup_old_backups_of_le _ _ hlen]
    refine ⟨hx_mem, ?_⟩
    intro g hg
    rw [hshape] at hg
    rcases List.mem_append.mp hg with h | h
    · exact Or.inr h
    · exact Or.inl (List.mem_singleton.mp h)
  · have hlt := not_le.mp hlen
    obtain ⟨rest, hsl⟩ := sortDesc_strict_max_head w1.backups x hx_mem hmax
    have hperm1 := sortDesc_perm w1.backups
    rw [hsl, hshape] at hperm1
    have hrest : List.Perm rest fl :=
      (hperm1.trans (List.perm_append_singleton _ _)).cons_inv
    have hrest_name : ∀ g ∈ rest, g.name ≠ x.name :=
      fun g hg => hname g (hrest.subset hg)
    have hdropsub : List.drop maxB (x :: rest) ⊆ rest := by
      have h1 : List.Sublist (List.drop maxB (x :: rest)) (List.drop 1 (x :: rest)) :=
        List.drop_sublist_drop_left _ hN
      simpa using h1.subset
    have hnot : x.name ∉ (((sortDesc w1.backups).drop maxB).map (fun f => f.name)).takeWhile
        (fun n => !w1.removeFails n) := by
      intro hmem
      have hmem2 := (List.takeWhile_sublist _).subset hmem
      rw [hsl] at hmem2
      rcases List.mem_map.mp hmem2 with ⟨g, hg, hgn⟩
      exact hrest_name g (hdropsub hg) hgn
    rw [cleanup_old_backups_of_lt _ _ hlt]
    constructor
    · exact List.mem_filter.mpr ⟨hx_mem, by simpa using hnot⟩
    · intro g hg
      have hgw := (List.mem_filter.mp hg).1
      rw [hshape] at hgw
      rcases List.mem_append.mp hgw with h | h
      · exact Or.inr h
      · exact Or.inl (List.mem_singleton.mp h)

/-- A successful `backup_data` call returns the new snapshot's name, the new
snapshot (containing exactly the passed store) is present in the resulting
folder, and it is strictly newer than every other file there. -/
lemma backup_data_success (data : Store) (w : World)
    (hb : w.backupWriteFails = false)
    (hmt : ∀ f ∈ w.backups, f.mtime < w.now) :
    (backup_data data w).2 = some w.now ∧
    (⟨w.now, FileData.parsed data, w.now⟩ : BackupFile) ∈ ((backup_data data w).1).backups ∧
    (∀ g ∈ ((backup_data data w).1).backups,
      g ≠ ⟨w.now, FileData.parsed data, w.now⟩ → g.mtime < w.now) := by
  have hbd1 : (backup_data data w).1 = cleanup_old_backups MAX_BACKUPS
      { w with backups := w.backups.filter (fun g => !decide (g.name = w.now))
          ++ [⟨w.now, FileData.parsed data, w.now⟩] } := by
    unfold backup_data
    rw [hb]
    simp
  have hbd2 : (backup_data data w).2 = some w.now := by
    unfold backup_data
    rw [hb]
    simp
  have hkey := cleanup_append_max_survives MAX_BACKUPS (by decide)
      { w with backups := w.backups.filter (fun g => !decide (g.name = w.now))
          ++ [⟨w.now, FileData.parsed data, w.now⟩] }
      (w.backups.filter (fun g => !decide (g.name = w.now)))
      ⟨w.now, FileData.parsed data, w.now⟩ rfl
      (fun g hg => hmt g (List.filter_subset' _ hg))
      (fun g hg => by simpa using (List.mem_filter.mp hg).2)
  refine ⟨hbd2, ?_, ?_⟩
  · rw [hbd1]
    exact hkey.1
  · intro g hg hne
    rw [hbd1] at hg
    rcases hkey.2 g hg with h | h
    · exact absurd h hne
    · exact hmt g (List.filter_subset' _ h)

/-- **C6** (confirmed): immediately after a successful `backup_data data`
(when the clock is strictly ahead of every existing backup's mtime, as it is
for snapshots taken after them), `restore_data` returns a store structurally
equal to `data`: the round trip through serialisation and the newest-first
ordering is the identity. -/
theorem backup_restore_round_trip (data : Store) (w : World)
    (hb : w.backupWriteFails = false)
    (hmt : ∀ f ∈ w.backups, f.mtime < w.now) :
    (backup_data data w).2 = some w.now ∧
    restore_data ((backup_data data w).1) = some data := by
  obtain ⟨hpath, hmem, hmax⟩ := backup_data_success data w hb hmt
  exact ⟨hpath,
    restore_data_of_strict_max _ _ _ hmem (fun g hg hne => hmax g hg hne) rfl⟩

/-- An existing folder with one old (even unparseable) backup and the clock
ahead of it. -/
def roundTripWorld : World :=
  ⟨none, [⟨0, FileData.unparseable, 0⟩], false, false, fun _ => false, 5⟩

/-- Witness for C6 at a concrete store. -/
theorem backup_restore_round_trip_witness :
    restore_data ((backup_data [("alice", [("ancient", 3)])] roundTripWorld).1)
      = some [("alice", [("ancient", 3)])] :=
  (backup_restore_round_trip [("alice", [("ancient", 3)])] roundTripWorld rfl (by decide)).2

/-- **C4** (confirmed): `save_data` snapshots the passed store before the
canonical write (whenever the backup write itself succeeds, the snapshot
with the passed contents is present in the resulting folder), and it
propagates failure to its caller if and only if the canonical-file write
fails — a pre-write backup failure never blocks or fails the save. -/
theorem save_data_failure_semantics (data : Store) (w : World)
    (hmt : ∀ f ∈ w.backups, f.mtime < w.now) :
    ((save_data data w).2 = true ↔ w.canonicalWriteFails = true) ∧
    (w.backupWriteFails = false →
      (⟨w.now, FileData.parsed data, w.now⟩ : BackupFile) ∈ ((save_data data w).1).backups) ∧
    (w.canonicalWriteFails = false →
      ((save_data data w).1).canonical = some (FileData.parsed data)) := by
  refine ⟨?_, ?_, ?_⟩
  · unfold save_data
    cases hc : w.canonicalWriteFails <;> simp [hc]
  · intro hb
    have hmem := (backup_data_success data w hb hmt).2.1
    unfold save_data
    cases hc : w.canonicalWriteFails <;> simpa using hmem
  · intro hc
    unfold save_data
    rw [hc]
    simp

/-- A world with one existing backup, both failure flags off. -/
def saveWorld : World :=
  ⟨none, [⟨0, FileData.parsed [], 0⟩], false, false, fun _ => false, 7⟩

/-- Witness for C4 at a concrete store and world: the save reports no
failure, the pre-write snapshot of the passed store exists, and the
canonical file holds the passed store. -/
theorem save_data_failure_semantics_witness :
    (save_data [("alice", [("void", 2)])] saveWorld).2 = false ∧
    (⟨7, FileData.parsed [("alice", [("void", 2)])], 7⟩ : BackupFile)
      ∈ ((save_data [("alice", [("void", 2)])] saveWorld).1).backups ∧
    ((save_data [("alice", [("void", 2)])] saveWorld).1).canonical
      = some (FileData.parsed [("alice", [("void", 2)])]) := by
  have h := save_data_failure_semantics [("alice", [("void", 2)])] saveWorld (by decide)
  exact ⟨by decide, h.2.1 rfl, h.2.2 rfl⟩

end MercyBot
